import Mathlib

/-!
Shallow embedding of the collector-rust repository (trinity-1686a/collector-rust),
covering the index/selection engine (`src/collector/src/index.rs`), the streaming
deduplication of `CollecTor::stream_descriptors` (`src/collector/src/collector.rs`),
the verified fetch task (`FileDownloader::download_inner`), the descriptor type
vocabulary and decode dispatch (`src/collector/src/descriptor/kind/mod.rs`), the
per-kind version gates, and the plain-file splitter of
`src/collector/src/descriptor/file_reader.rs`.

Timestamps (`DateTime<Utc>` in the source) are modelled as integers: the code only
ever compares them, so any linear order is faithful. Strings are modelled as
`List Char`.
-/

namespace Collector

/-! ## Time ranges: Rust `RangeBounds<DateTime<Utc>>` over an integer time axis -/

/-- One endpoint of a Rust range, mirroring `std::ops::Bound`. -/
inductive RBound where
  | unbounded : RBound
  | included : Int → RBound
  | excluded : Int → RBound
deriving DecidableEq, Repr

/-- Whether a start bound admits `t`, as in `RangeBounds::contains`. -/
def RBound.startContains : RBound → Int → Bool
  | .unbounded, _ => true
  | .included s, t => decide (s ≤ t)
  | .excluded s, t => decide (s < t)

/-- Whether an end bound admits `t`, as in `RangeBounds::contains`. -/
def RBound.endContains : RBound → Int → Bool
  | .unbounded, _ => true
  | .included e, t => decide (t ≤ e)
  | .excluded e, t => decide (t < e)

/-- `get_bound` from `File::overlap`: the carried value of a bounded endpoint. -/
def RBound.getBound : RBound → Option Int
  | .unbounded => none
  | .included v => some v
  | .excluded v => some v

/-- A Rust `RangeBounds<DateTime<Utc>>` value: a start bound and an end bound. -/
structure TimeRange where
  startB : RBound
  endB : RBound
deriving DecidableEq, Repr

/-- `RangeBounds::contains`: both endpoints admit `t`. -/
def TimeRange.containsT (r : TimeRange) (t : Int) : Bool :=
  r.startB.startContains t && r.endB.endContains t

/-- The closed bounded range `a..=b`. -/
def closedRange (a b : Int) : TimeRange :=
  ⟨.included a, .included b⟩

/-! ## Descriptor types (`descriptor/kind/mod.rs`) -/

/-- The Rust `Type` enum: 18 known descriptor kinds plus `Unknown(String)`. -/
inductive DescType where
  | bandwidthFile
  | bridgeExtraInfo
  | bridgeNetworkStatus
  | bridgePoolAssignment
  | bridgeServerDescriptor
  | bridgestrapStats
  | dirKeyCertificate3
  | directory
  | extraInfo
  | microdescriptor
  | networkStatus2
  | networkStatusConsensus3
  | networkStatusMicrodescConsensus3
  | networkStatusVote3
  | serverDescriptor
  | snowflakeStats
  | tordnsel
  | torperf
  | unknown : List Char → DescType
deriving DecidableEq, Repr

/-- The Rust `VersionnedType`: a descriptor type with a `(major, minor)` version. -/
structure VersionnedType where
  ttype : DescType
  version : Nat × Nat
deriving DecidableEq, Repr

/-! ## File entries (`index.rs`) -/

/-- The Rust `File` struct of `index.rs`: metadata of one file of the index. -/
structure File where
  path : List Char
  size : Nat
  lastModified : Int
  types : List VersionnedType
  firstPublished : Int
  lastPublished : Int
  sha256 : List Nat
deriving DecidableEq, Repr

/-- `File::type_matches`: some entry of `types` has the requested type. -/
def File.typeMatches (f : File) (t : DescType) : Bool :=
  f.types.any (fun vt => vt.ttype == t)

/-- `File::time_range` as a pair `(first_published, last_published)`,
standing for the Rust `first_published..=last_published`. -/
def File.timeRange (f : File) : Int × Int :=
  (f.firstPublished, f.lastPublished)

/-- `File::overlap`. `none` models the `expect` panic on the line
"if we are here, time_range can't be unbounded"; `some b` is a normal return. -/
def File.overlap (f : File) (r : TimeRange) : Option Bool :=
  if r.containsT f.firstPublished || r.containsT f.lastPublished
      || r.containsT f.lastModified then
    some true
  else
    match r.startB.getBound with
    | some v => some (decide (f.firstPublished ≤ v) && decide (v ≤ f.lastPublished))
    | none =>
      match r.endB.getBound with
      | some v => some (decide (f.firstPublished ≤ v) && decide (v ≤ f.lastPublished))
      | none => none

/-- `pre` is an initial run of `s` (Rust `str::starts_with`). -/
def leadsWith (pre s : List Char) : Bool :=
  List.isPrefixOf pre s

/-- `sub` occurs contiguously somewhere in `s` (Rust `str::contains`). -/
def containsSub (s sub : List Char) : Bool :=
  leadsWith sub s ||
    match s with
    | [] => false
    | _ :: rest => containsSub rest sub

/-- `suf` is a final run of `s` (Rust `str::ends_with`). -/
def endsWithChars (s suf : List Char) : Bool :=
  decide (suf.length ≤ s.length) && s.drop (s.length - suf.length) == suf

/-- `File::is_archive`: path ends with ".tar" or contains ".tar.". -/
def File.isArchive (f : File) : Bool :=
  endsWithChars f.path (String.toList ".tar") || containsSub f.path (String.toList ".tar.")

/-! ## Streaming deduplication (`CollecTor::stream_descriptors`, `collector.rs`)

`rangetools::BoundedSet` is modelled as a list of closed intervals with
set-semantics: `union` conses an interval, `disjoint` is emptiness of the
pairwise intersection. -/

/-- Membership in a closed interval given as a pair `(lo, hi)`. -/
def memIvl (t : Int) (ivl : Int × Int) : Prop :=
  ivl.1 ≤ t ∧ t ≤ ivl.2

instance (t : Int) (ivl : Int × Int) : Decidable (memIvl t ivl) := by
  unfold memIvl
  infer_instance

/-- Two closed intervals share no point. -/
def DisjointIvl (i j : Int × Int) : Prop :=
  ∀ t, ¬(memIvl t i ∧ memIvl t j)

/-- Decidable test for `DisjointIvl`: one interval ends before the other starts,
or one of them is empty. -/
def disjointIvlB (i j : Int × Int) : Bool :=
  decide (i.2 < j.1) || decide (j.2 < i.1) || decide (i.2 < i.1) || decide (j.2 < j.1)

/-- A point belongs to the running cover (the `BoundedSet`). -/
def memCover (t : Int) (cover : List (Int × Int)) : Prop :=
  ∃ ivl ∈ cover, memIvl t ivl

/-- `BoundedSet::disjoint` with a candidate interval: disjoint from every
interval of the cover. -/
def disjointCoverB (ivl : Int × Int) (cover : List (Int × Int)) : Bool :=
  cover.all (disjointIvlB ivl)

/-- The `scan` of `stream_descriptors`: walk the filtered files in order keeping
a running cover; admit a file when it is an archive or its time range is
disjoint from the cover, and in that case add its range to the cover; otherwise
drop it. Returns the admitted files in order. -/
def dedupScan : List File → List (Int × Int) → List File
  | [], _ => []
  | f :: rest, cover =>
    if f.isArchive || disjointCoverB f.timeRange cover then
      f :: dedupScan rest (f.timeRange :: cover)
    else
      dedupScan rest cover

/-- The cover after the scan has walked a list of files. -/
def coverAfter : List File → List (Int × Int) → List (Int × Int)
  | [], cover => cover
  | f :: rest, cover =>
    if f.isArchive || disjointCoverB f.timeRange cover then
      coverAfter rest (f.timeRange :: cover)
    else
      coverAfter rest cover

/-- `File::overlap` as a plain Boolean (`File.overlap` never returns `none`,
see the totality theorem for C10). -/
def File.overlapB (f : File) (r : TimeRange) : Bool :=
  (f.overlap r).getD false

/-- The filter of `stream_descriptors`: keep files of the requested type whose
time bounds overlap the requested range. -/
def filteredFiles (files : List File) (t : DescType) (r : TimeRange) : List File :=
  files.filter (fun f => f.typeMatches t && f.overlapB r)

/-- The file-selection part of `stream_descriptors`: filter, then deduplicate. -/
def streamFiles (files : List File) (t : DescType) (r : TimeRange) : List File :=
  dedupScan (filteredFiles files t r) []

/-- Timestamps streamed from the selected files, given the (abstract) entry
timestamps contained in each file. -/
def streamedEntries (entries : File → List Int) (files : List File) (t : DescType)
    (r : TimeRange) : List Int :=
  (streamFiles files t r).flatMap entries

/-- Concrete archive file used by witnesses: path "archive/a.tar", covering
times `[0, 10]`, carrying type bridge-pool-assignment 1.0. -/
def archiveEx : File :=
  ⟨String.toList "archive/a.tar", 0, 0, [⟨.bridgePoolAssignment, (1, 0)⟩], 0, 10, []⟩

/-- Concrete recent file disjoint from `archiveEx`: path "recent/r", covering
times `[20, 30]`. -/
def recentEx : File :=
  ⟨String.toList "recent/r", 0, 0, [⟨.bridgePoolAssignment, (1, 0)⟩], 20, 30, []⟩

/-- Concrete recent file overlapping `archiveEx`: path "recent/r", covering
times `[1, 20]` (so `T0 = 0 < T0 + ε = 1 ≤ T1 = 10 < T2 = 20`). -/
def recentOverlapEx : File :=
  ⟨String.toList "recent/r", 0, 20, [⟨.bridgePoolAssignment, (1, 0)⟩], 1, 20, []⟩

/-- Concrete entry timestamps: the archive holds entries at 0, 5, 10; the
overlapping recent file holds entries at 1 and 15. -/
def entriesEx (f : File) : List Int :=
  if f == archiveEx then [0, 5, 10]
  else if f == recentOverlapEx then [1, 15] else []

/-! ## String forms of `Type` and `VersionnedType` (`descriptor/kind/mod.rs`) -/

/-- `Type::as_str`: the canonical string form of each descriptor type. -/
def DescType.asStr : DescType → List Char
  | .bandwidthFile => String.toList "bandwidth-file"
  | .bridgeExtraInfo => String.toList "bridge-extra-info"
  | .bridgeNetworkStatus => String.toList "bridge-network-status"
  | .bridgePoolAssignment => String.toList "bridge-pool-assignment"
  | .bridgeServerDescriptor => String.toList "bridge-server-descriptor"
  | .bridgestrapStats => String.toList "bridgestrap-stats"
  | .dirKeyCertificate3 => String.toList "dir-key-certificate-3"
  | .directory => String.toList "directory"
  | .extraInfo => String.toList "extra-info"
  | .microdescriptor => String.toList "microdescriptor"
  | .networkStatus2 => String.toList "network-status-2"
  | .networkStatusConsensus3 => String.toList "network-status-consensus-3"
  | .networkStatusMicrodescConsensus3 => String.toList "network-status-microdesc-consensus-3"
  | .networkStatusVote3 => String.toList "network-status-vote-3"
  | .serverDescriptor => String.toList "server-descriptor"
  | .snowflakeStats => String.toList "snowflake-stats"
  | .tordnsel => String.toList "tordnsel"
  | .torperf => String.toList "torperf"
  | .unknown s => s

/-- `Type::from_str` (infallible): match the 18 known names, else `Unknown`. -/
def DescType.fromStr (s : List Char) : DescType :=
  if s = String.toList "bandwidth-file" then .bandwidthFile
  else if s = String.toList "bridge-extra-info" then .bridgeExtraInfo
  else if s = String.toList "bridge-network-status" then .bridgeNetworkStatus
  else if s = String.toList "bridge-pool-assignment" then .bridgePoolAssignment
  else if s = String.toList "bridge-server-descriptor" then .bridgeServerDescriptor
  else if s = String.toList "bridgestrap-stats" then .bridgestrapStats
  else if s = String.toList "dir-key-certificate-3" then .dirKeyCertificate3
  else if s = String.toList "directory" then .directory
  else if s = String.toList "extra-info" then .extraInfo
  else if s = String.toList "microdescriptor" then .microdescriptor
  else if s = String.toList "network-status-2" then .networkStatus2
  else if s = String.toList "network-status-consensus-3" then .networkStatusConsensus3
  else if s = String.toList "network-status-microdesc-consensus-3" then
    .networkStatusMicrodescConsensus3
  else if s = String.toList "network-status-vote-3" then .networkStatusVote3
  else if s = String.toList "server-descriptor" then .serverDescriptor
  else if s = String.toList "snowflake-stats" then .snowflakeStats
  else if s = String.toList "tordnsel" then .tordnsel
  else if s = String.toList "torperf" then .torperf
  else .unknown s

/-- Decimal digit characters of a number, as Rust `Display` for `u32` prints it. -/
def natDigits (n : Nat) : List Char :=
  if h : n < 10 then [Char.ofNat (48 + n)]
  else natDigits (n / 10) ++ [Char.ofNat (48 + n % 10)]
termination_by n
decreasing_by exact Nat.div_lt_self (by omega) (by omega)

/-- Rust `str::parse::<u32>`: all characters must be decimal digits and the
string non-empty; the value is the decimal fold. -/
def parseNat (s : List Char) : Option Nat :=
  if s = [] then none
  else if s.all (fun c => decide (48 ≤ c.toNat) && decide (c.toNat ≤ 57)) then
    some (s.foldl (fun acc c => acc * 10 + (c.toNat - 48)) 0)
  else none

/-- Rust `str::split_once`: split at the first occurrence of `sep`. -/
def splitOnce (sep : Char) : List Char → Option (List Char × List Char)
  | [] => none
  | c :: rest =>
    if c = sep then some ([], rest)
    else (splitOnce sep rest).map (fun p => (c :: p.1, p.2))

/-- `VersionnedType`'s `Serialize` impl: the string
`"<type-name> <major>.<minor>"`. -/
def VersionnedType.serializeStr (vt : VersionnedType) : List Char :=
  vt.ttype.asStr ++ ' ' :: (natDigits vt.version.1 ++ '.' :: natDigits vt.version.2)

/-- `VersionnedType`'s `Deserialize` impl: split at the first space, split the
rest at the first dot, parse both numbers, run `Type::from_str` on the name. -/
def VersionnedType.deserializeStr (s : List Char) : Option VersionnedType :=
  match splitOnce ' ' s with
  | none => none
  | some (t, v) =>
    match splitOnce '.' v with
    | none => none
    | some (majS, minS) =>
      match parseNat majS, parseNat minS with
      | some ma, some mi => some ⟨DescType.fromStr t, (ma, mi)⟩
      | _, _ => none

/-! ## Version gates of the descriptor parsers (descriptor/kind)

Each `parse` function receives a `(major, minor)` version and rejects with
`UnsupportedDesc` exactly when the embedded condition holds; these are the
literal early-return conditions of the source. -/

/-- `BridgePoolAssignment::parse`: reject iff `version.0 != 1 || version.1 != 0`. -/
def BridgePoolAssignment.rejectsVersion (v : Nat × Nat) : Bool :=
  decide (v.1 ≠ 1) || decide (v.2 ≠ 0)

/-- `ServerDescriptor::parse`: reject iff `version.0 != 1 || version.1 != 0`. -/
def ServerDescriptor.rejectsVersion (v : Nat × Nat) : Bool :=
  decide (v.1 ≠ 1) || decide (v.2 ≠ 0)

/-- `BridgeServerDescriptor::parse`: reject iff `version.0 != 1 || version.1 > 2`. -/
def BridgeServerDescriptor.rejectsVersion (v : Nat × Nat) : Bool :=
  decide (v.1 ≠ 1) || decide (v.2 > 2)

/-- `BridgeExtraInfo::parse`: reject iff `version.0 != 1 || version.1 > 3`. -/
def BridgeExtraInfo.rejectsVersion (v : Nat × Nat) : Bool :=
  decide (v.1 ≠ 1) || decide (v.2 > 3)

/-- `BridgeNetworkStatus::parse`: reject iff `version.0 != 1 || version.1 > 2`. -/
def BridgeNetworkStatus.rejectsVersion (v : Nat × Nat) : Bool :=
  decide (v.1 ≠ 1) || decide (v.2 > 2)

/-- `BridgestrapStats::parse`: reject iff `version.0 != 1 || version.1 > 0`. -/
def BridgestrapStats.rejectsVersion (v : Nat × Nat) : Bool :=
  decide (v.1 ≠ 1) || decide (v.2 > 0)

/-- `Microdescriptor::parse`: reject iff `version.0 != 1 || version.1 != 0`. -/
def Microdescriptor.rejectsVersion (v : Nat × Nat) : Bool :=
  decide (v.1 ≠ 1) || decide (v.2 ≠ 0)

/-! ## `Descriptor::decode` dispatch (`descriptor/kind/mod.rs`)

`VersionnedType::parse` is the nom parser
`tag "@type " >> take_till (== ' ') >> space1 >> u32 >> tag "." >> u32 >> line_ending`;
`Descriptor::decode` runs it under `.expect(...)` — a panic on failure — then
routes on the parsed type. -/

/-- nom `take_till p`: longest run not satisfying `p`, plus the rest. Never fails. -/
def takeTill (p : Char → Bool) (s : List Char) : List Char × List Char :=
  (s.takeWhile (fun c => !p c), s.dropWhile (fun c => !p c))

/-- nom `space1` character class: space or tab. -/
def isSpaceTab (c : Char) : Bool :=
  c == ' ' || c == '\t'

/-- nom `u32`: one or more decimal digits, value capped at `u32::MAX`. Returns
the value and the rest, or `none`. -/
def parseU32 (s : List Char) : Option (Nat × List Char) :=
  let digits := s.takeWhile (fun c => decide (48 ≤ c.toNat) && decide (c.toNat ≤ 57))
  if digits = [] then none
  else
    match parseNat digits with
    | some v =>
      if v ≤ 4294967295 then some (v, s.dropWhile (fun c => decide (48 ≤ c.toNat) && decide (c.toNat ≤ 57)))
      else none
    | none => none

/-- nom `line_ending`: consume `"\n"` or `"\r\n"`. -/
def lineEnding (s : List Char) : Option (List Char) :=
  match s with
  | '\n' :: rest => some rest
  | '\r' :: '\n' :: rest => some rest
  | _ => none

/-- `VersionnedType::parse`: the `@type <name> <major>.<minor>` header line.
Returns the parsed value and the remaining input, or `none` (a nom error). -/
def VersionnedType.parseHeader (s : List Char) : Option (VersionnedType × List Char) :=
  if leadsWith (String.toList "@type ") s then
    let s₁ := s.drop 6
    let (tname, r₁) := takeTill (fun c => c == ' ') s₁
    let sp := r₁.takeWhile isSpaceTab
    if sp = [] then none
    else
      match parseU32 (r₁.dropWhile isSpaceTab) with
      | none => none
      | some (ma, r₂) =>
        match r₂ with
        | '.' :: r₃ =>
          match parseU32 r₃ with
          | none => none
          | some (mi, r₄) =>
            match lineEnding r₄ with
            | none => none
            | some rest => some (⟨DescType.fromStr tname, (ma, mi)⟩, rest)
        | _ => none
  else none

/-- Outcome of the front end of `Descriptor::decode`. -/
inductive DecodeOutcome where
  /-- A panic: the `expect` on a failed header parse, or the `todo!()` parser. -/
  | panicked : DecodeOutcome
  /-- `Err(UnsupportedDesc(...))`: recognized kind without an implemented parser. -/
  | unsupported : DescType → DecodeOutcome
  /-- The body is handed to the named kind's implemented parser. -/
  | dispatched : DescType → Nat × Nat → List Char → DecodeOutcome
deriving DecidableEq, Repr

/-- `Descriptor::decode`, up to the dispatch: parse the header (panicking on
failure, this is the `expect`), then route by type. The
`network-status-microdesc-consensus-3` parser is `todo!()`, another panic. -/
def Descriptor.decodeFront (s : List Char) : DecodeOutcome :=
  match VersionnedType.parseHeader s with
  | none => .panicked
  | some (vt, rest) =>
    match vt.ttype with
    | .bridgeExtraInfo => .dispatched .bridgeExtraInfo vt.version rest
    | .bridgeNetworkStatus => .dispatched .bridgeNetworkStatus vt.version rest
    | .bridgePoolAssignment => .dispatched .bridgePoolAssignment vt.version rest
    | .bridgeServerDescriptor => .dispatched .bridgeServerDescriptor vt.version rest
    | .bridgestrapStats => .dispatched .bridgestrapStats vt.version rest
    | .microdescriptor => .dispatched .microdescriptor vt.version rest
    | .networkStatusMicrodescConsensus3 => .panicked
    | .serverDescriptor => .dispatched .serverDescriptor vt.version rest
    | t => .unsupported t

/-! ## Index flattening (`SerializedIndex::list_files`, `index.rs`) -/

/-- The Rust `Directory` struct: a path component, subdirectories, files. -/
inductive Directory where
  | mk : List Char → List Directory → List File → Directory

/-- `Directory::list_files_rec`: each leaf file paired with the reversed chain
of directory names leading to it (the source pushes each ancestor after
recursing, producing innermost-first order). -/
def Directory.listFilesRec : Directory → List (List (List Char) × File)
  | .mk path dirs files =>
    (dirs.attach.flatMap (fun d => d.1.listFilesRec)).map (fun pf => (pf.1 ++ [path], pf.2))
      ++ files.map (fun f => ([path], f))
decreasing_by
  have := List.sizeOf_lt_of_mem d.2
  simp
  omega

/-- The leaves of a directory, paired with the chain of ancestor directory
names in root-to-leaf order. Modelled from the spec: "each leaf file inherits
the concatenation of its ancestor directory names". -/
def Directory.leavesSpec : Directory → List (List (List Char) × File)
  | .mk path dirs files =>
    dirs.attach.flatMap (fun d => (d.1.leavesSpec).map (fun pf => (path :: pf.1, pf.2)))
      ++ files.map (fun f => ([path], f))
decreasing_by
  have := List.sizeOf_lt_of_mem d.2
  simp
  omega

/-- The Rust `SerializedIndex` struct deserialized from the manifest JSON. -/
structure SerializedIndex where
  indexCreated : Int
  buildRevision : List Char
  path : List Char
  directories : List Directory
  files : List File

/-- Rust `Vec::join("/")` on path components. -/
def joinSlash : List (List Char) → List Char
  | [] => []
  | [p] => p
  | p :: rest => p ++ '/' :: joinSlash rest

/-- `SerializedIndex::list_files`: flatten the directories, reverse each
ancestor chain, append the leaf's own path, join with "/". -/
def SerializedIndex.listFiles (idx : SerializedIndex) : List (List Char × File) :=
  (idx.directories.flatMap Directory.listFilesRec).map
    (fun pf => (joinSlash (pf.1.reverse ++ [pf.2.path]), pf.2))

/-- `Index::from_file`'s final step: override each file's `path` with the
joined path (the collection into a `BTreeSet` preserves membership). -/
def SerializedIndex.indexFiles (idx : SerializedIndex) : List File :=
  idx.listFiles.map (fun pf => { pf.2 with path := pf.1 })

/-! ## Plain-file splitting (`FileReader::read_file`, `descriptor/file_reader.rs`)

For a non-tar path the reader loads the whole file and repeatedly splits at the
first occurrence of `"\n@type"`, yielding `body[..idx + 1]` (newline included)
and continuing with `body[idx + 1..]`; the final chunk is yielded as is. -/

/-- The characters of `"@type"`. -/
def atTypeChars : List Char := ['@', 't', 'y', 'p', 'e']

/-- The characters of the split marker `"\n@type"`. -/
def markerChars : List Char := '\n' :: atTypeChars

/-- Rust `str::find("\n@type")`: index of the first marker occurrence. -/
def findMarker : List Char → Option Nat
  | [] => none
  | c :: rest =>
    if leadsWith markerChars (c :: rest) then some 0
    else (findMarker rest).map (· + 1)

/-- The split loop of `FileReader::read_file` for plain files: yield
`body.take (idx + 1)` at each marker, then the final remainder. -/
def splitAtTypeMarkers (body : List Char) : List (List Char) :=
  match h : findMarker body with
  | none => [body]
  | some idx => body.take (idx + 1) :: splitAtTypeMarkers (body.drop (idx + 1))
termination_by body.length
decreasing_by
  have hne : body ≠ [] := by
    intro he
    subst he
    simp [findMarker] at h
  have hpos : 0 < body.length := List.length_pos.mpr hne
  simp [List.length_drop]
  omega

/-! ## The verified fetch task (`FileDownloader::download_inner`, `collector.rs`)

The task is modelled as a pure function of the local file content at the
target path (`disk`), the offline flag, and the HTTP response the server would
give; SHA-256 is an abstract hash function. It returns the task result, the
on-disk content afterwards, and the number of HTTP GET requests issued. -/

/-- Result of one fetch task. -/
inductive DLResult where
  | ok : DLResult
  | errNotFound : DLResult
  | errHttpError : Nat → DLResult
  | errHashMismatch : DLResult
deriving DecidableEq, Repr

/-- An HTTP response: status, optional Content-Length header, body bytes. -/
structure HttpResp where
  status : Nat
  contentLength : Option Nat
  body : List Nat
deriving DecidableEq, Repr

/-- Steps 2–4 of the fetch task: offline check, GET, status check,
Content-Length guard, streamed write with running hash, final hash check. -/
def fetchStep (sha : List Nat → List Nat) (fileSha : List Nat) (fileSize : Nat)
    (disk : Option (List Nat)) (download : Bool) (resp : HttpResp) :
    DLResult × Option (List Nat) × Nat :=
  if download = false then (.errNotFound, disk, 0)
  else if resp.status ≠ 200 then (.errHttpError resp.status, disk, 1)
  else if (resp.contentLength.map (fun l => decide (l ≠ fileSize))).getD false then
    (.errHashMismatch, disk, 1)
  else if sha resp.body ≠ fileSha then (.errHashMismatch, some resp.body, 1)
  else (.ok, some resp.body, 1)

/-- `FileDownloader::download_inner`: if a local file exists and its streamed
hash equals the expected one, succeed with no request; otherwise fetch. -/
def downloadInner (sha : List Nat → List Nat) (fileSha : List Nat) (fileSize : Nat)
    (disk : Option (List Nat)) (download : Bool) (resp : HttpResp) :
    DLResult × Option (List Nat) × Nat :=
  match disk with
  | some content =>
    if sha content = fileSha then (.ok, some content, 0)
    else fetchStep sha fileSha fileSize (some content) download resp
  | none => fetchStep sha fileSha fileSize none download resp

/-! ## Lemmas about `File.overlap` -/

/-- On a closed bounded range, `File::overlap` reduces to the source's four-way
disjunction: one of the three timestamps is inside `[a,b]`, or the start bound `a`
lies inside `first_published..=last_published`. -/
theorem overlap_closedRange (f : File) (a b : Int) :
    f.overlap (closedRange a b) =
      some (decide ((a ≤ f.firstPublished ∧ f.firstPublished ≤ b)
        ∨ (a ≤ f.lastPublished ∧ f.lastPublished ≤ b)
        ∨ (a ≤ f.lastModified ∧ f.lastModified ≤ b)
        ∨ (f.firstPublished ≤ a ∧ a ≤ f.lastPublished))) := by
  simp only [File.overlap, closedRange, TimeRange.containsT, RBound.startContains,
    RBound.endContains, RBound.getBound]
  split
  next h =>
    simp only [Bool.or_eq_true, Bool.and_eq_true, decide_eq_true_eq] at h
    rw [decide_eq_true (by tauto)]
  next h =>
    simp only [Bool.or_eq_true, Bool.and_eq_true, decide_eq_true_eq, not_or] at h
    congr 1
    rw [← Bool.decide_and, decide_eq_decide]
    constructor
    · intro hc
      tauto
    · intro hc
      tauto

/-- A closed interval `[fp, lp]` meets `[a, b]` iff `max fp a ≤ min lp b`. -/
theorem closed_inter_nonempty (fp lp a b : Int) :
    (∃ t, (fp ≤ t ∧ t ≤ lp) ∧ (a ≤ t ∧ t ≤ b)) ↔ max fp a ≤ min lp b := by
  constructor
  · rintro ⟨t, ⟨h1, h2⟩, h3, h4⟩
    omega
  · intro h
    exact ⟨max fp a, by omega, by omega⟩

theorem disjointIvlB_iff (i j : Int × Int) : disjointIvlB i j = true ↔ DisjointIvl i j := by
  unfold disjointIvlB DisjointIvl memIvl
  simp only [Bool.or_eq_true, decide_eq_true_eq]
  constructor
  · intro h t ⟨⟨h1, h2⟩, h3, h4⟩
    omega
  · intro h
    by_contra hc
    push_neg at hc
    exact h (max i.1 j.1) ⟨⟨by omega, by omega⟩, by omega, by omega⟩

theorem disjointCoverB_iff (ivl : Int × Int) (cover : List (Int × Int)) :
    disjointCoverB ivl cover = true ↔ ∀ t, ¬(memIvl t ivl ∧ memCover t cover) := by
  unfold disjointCoverB memCover
  rw [List.all_eq_true]
  constructor
  · intro h t ⟨hm, j, hj, hmj⟩
    exact (disjointIvlB_iff ivl j).mp (h j hj) t ⟨hm, hmj⟩
  · intro h j hj
    rw [disjointIvlB_iff]
    intro t ⟨hm, hmj⟩
    exact h t ⟨hm, j, hj, hmj⟩

theorem dedupScan_append (l₁ l₂ : List File) (cover : List (Int × Int)) :
    dedupScan (l₁ ++ l₂) cover = dedupScan l₁ cover ++ dedupScan l₂ (coverAfter l₁ cover) := by
  induction l₁ generalizing cover with
  | nil => rfl
  | cons f rest ih =>
    simp only [List.cons_append, dedupScan, coverAfter, List.append_eq]
    split
    · rw [ih]
      rfl
    · rw [ih]

theorem mem_coverAfter (ivl : Int × Int) (l : List File) (cover : List (Int × Int))
    (h : ivl ∈ cover) : ivl ∈ coverAfter l cover := by
  induction l generalizing cover with
  | nil => exact h
  | cons f rest ih =>
    simp only [coverAfter]
    split
    · exact ih _ (List.mem_cons_of_mem _ h)
    · exact ih _ h

theorem dedupScan_subset (x : File) (l : List File) (cover : List (Int × Int))
    (h : x ∈ dedupScan l cover) : x ∈ l := by
  induction l generalizing cover with
  | nil => exact absurd h (List.not_mem_nil x)
  | cons f rest ih =>
    simp only [dedupScan] at h
    split at h
    · rcases List.mem_cons.mp h with h | h
      · exact h ▸ List.mem_cons_self f rest
      · exact List.mem_cons_of_mem _ (ih _ h)
    · exact List.mem_cons_of_mem _ (ih _ h)

theorem dedupScan_archive_mem (f : File) (l : List File) (ha : f.isArchive = true) :
    ∀ cover, f ∈ l → f ∈ dedupScan l cover := by
  induction l with
  | nil =>
    intro cover h
    exact absurd h (List.not_mem_nil f)
  | cons g rest ih =>
    intro cover hf
    simp only [dedupScan]
    rcases List.mem_cons.mp hf with heq | hmem
    · subst heq
      rw [ha]
      simp only [Bool.true_or, if_true]
      exact List.mem_cons_self _ _
    · split
      · exact List.mem_cons_of_mem _ (ih _ hmem)
      · exact ih _ hmem

theorem archive_timeRange_mem_coverAfter (f : File) (l : List File) (ha : f.isArchive = true) :
    ∀ cover, f ∈ l → f.timeRange ∈ coverAfter l cover := by
  induction l with
  | nil =>
    intro cover h
    exact absurd h (List.not_mem_nil f)
  | cons g rest ih =>
    intro cover hf
    simp only [coverAfter]
    rcases List.mem_cons.mp hf with heq | hmem
    · subst heq
      rw [ha]
      simp only [Bool.true_or, if_true]
      exact mem_coverAfter _ _ _ (List.mem_cons_self _ _)
    · split
      · exact ih _ hmem
      · exact ih _ hmem

theorem dedupScan_recent_disjoint_archive (pre mid post : List File) (a r : File)
    (hnd : (pre ++ a :: mid ++ r :: post).Nodup)
    (ha : a.isArchive = true) (hr : r.isArchive = false)
    (hmem : r ∈ dedupScan (pre ++ a :: mid ++ r :: post) []) :
    DisjointIvl r.timeRange a.timeRange := by
  rw [List.nodup_append] at hnd
  obtain ⟨-, hrightnd, hdisj⟩ := hnd
  rw [List.nodup_cons] at hrightnd
  obtain ⟨hrpost, -⟩ := hrightnd
  have hrleft : r ∉ pre ++ a :: mid := fun h => hdisj h (List.mem_cons_self _ _)
  rw [dedupScan_append] at hmem
  by_cases hd : disjointCoverB r.timeRange (coverAfter (pre ++ a :: mid) []) = true
  · have hall := (disjointCoverB_iff _ _).mp hd
    have hc : a.timeRange ∈ coverAfter (pre ++ a :: mid) [] :=
      archive_timeRange_mem_coverAfter a _ ha [] (by simp)
    intro t ⟨hmr, hma⟩
    exact hall t ⟨hmr, a.timeRange, hc, hma⟩
  · exfalso
    simp only [dedupScan, hr, Bool.false_or, hd, if_false] at hmem
    rcases List.mem_append.mp hmem with h | h
    · exact hrleft (dedupScan_subset _ _ _ h)
    · exact hrpost (dedupScan_subset _ _ _ h)

/-- Claim C2: in `stream_descriptors`, while scanning the filtered files in order
with a running cover, (1) an archive file is admitted unconditionally; (2) a
recent (non-archive) file is admitted iff its time range is disjoint from the
cover reached at its position, its range then joining the cover; (3) hence an
admitted recent file's time range is disjoint from the range of every
earlier-listed archive file of the filtered (duplicate-free) list. -/
theorem c2_stream_dedup_invariant :
    (∀ (l : List File) (cover : List (Int × Int)) (f : File),
        f ∈ l → f.isArchive = true → f ∈ dedupScan l cover)
    ∧ (∀ (pre post : List File) (f : File) (cover : List (Int × Int)),
        f.isArchive = false →
        dedupScan (pre ++ f :: post) cover =
          dedupScan pre cover ++
            (if disjointCoverB f.timeRange (coverAfter pre cover) then
              f :: dedupScan post (f.timeRange :: coverAfter pre cover)
            else
              dedupScan post (coverAfter pre cover)))
    ∧ (∀ (files : List File) (t : DescType) (q : TimeRange)
        (pre mid post : List File) (a r : File),
        filteredFiles files t q = pre ++ a :: mid ++ r :: post →
        (filteredFiles files t q).Nodup →
        a.isArchive = true → r.isArchive = false →
        r ∈ streamFiles files t q →
        DisjointIvl r.timeRange a.timeRange) := by
  refine ⟨?_, ?_, ?_⟩
  · intro l cover f hf ha
    exact dedupScan_archive_mem f l ha cover hf
  · intro pre post f cover hf
    rw [dedupScan_append]
    simp only [dedupScan, hf, Bool.false_or]
  · intro files t q pre mid post a r hfil hnd ha hr hmem
    rw [hfil] at hnd
    unfold streamFiles at hmem
    rw [hfil] at hmem
    exact dedupScan_recent_disjoint_archive pre mid post a r hnd ha hr hmem

/-- Claim C2, witness: conjunct (3) of the invariant instantiated on an index of
two files, an archive covering `[0, 10]` and an admitted recent file covering
`[20, 30]`. -/
theorem c2_stream_dedup_invariant_witness :
    filteredFiles [archiveEx, recentEx] .bridgePoolAssignment (closedRange 0 30) =
      [] ++ archiveEx :: [] ++ recentEx :: [] ∧
    (filteredFiles [archiveEx, recentEx] .bridgePoolAssignment (closedRange 0 30)).Nodup ∧
    archiveEx.isArchive = true ∧
    recentEx.isArchive = false ∧
    recentEx ∈ streamFiles [archiveEx, recentEx] .bridgePoolAssignment (closedRange 0 30) ∧
    DisjointIvl recentEx.timeRange archiveEx.timeRange :=
  ⟨by decide, by decide, by decide, by decide, by decide,
    c2_stream_dedup_invariant.2.2 [archiveEx, recentEx] .bridgePoolAssignment
      (closedRange 0 30) [] [] [] archiveEx recentEx (by decide) (by decide)
      (by decide) (by decide) (by decide)⟩

/-- Claim C3, counterexample: with an archive covering `[0, 10]` and a recent
file covering `[1, 20]`, the recent file's range meets the cover, so
`stream_descriptors` drops the recent file wholesale; the streamed entries are
exactly the archive's `[0, 5, 10]`, not the archive's entries plus the
`(10, 20]` portion (the entry at 15) of the recent file as the claim states. -/
theorem c3_stream_portion_counterexample :
    streamedEntries entriesEx [archiveEx, recentOverlapEx] .bridgePoolAssignment
        (closedRange 0 20) = [0, 5, 10]
    ∧ recentOverlapEx ∉ streamFiles [archiveEx, recentOverlapEx] .bridgePoolAssignment
        (closedRange 0 20)
    ∧ streamedEntries entriesEx [archiveEx, recentOverlapEx] .bridgePoolAssignment
        (closedRange 0 20) ≠
      [0, 5, 10] ++ (entriesEx recentOverlapEx).filter
        (fun x => decide (10 < x) && decide (x ≤ 20)) :=
  ⟨by decide, by decide, by decide⟩

/-- Claim C3 (amended): for an index holding an archive file with time range
`[T0, T1]` and a recent file with time range `[T0 + ε, T2]`
(`T0 < T0 + ε ≤ T1 < T2`), both passing the type/overlap filter,
`stream_descriptors` selects only the archive file: the recent file is dropped
wholesale because its range meets the cover, so the archive's entries are
streamed and no portion of the recent file's entries is streamed. -/
theorem c3_stream_overlapping_recent_dropped (a r : File) (entries : File → List Int)
    (t : DescType) (q : TimeRange)
    (ha : a.isArchive = true) (hr : r.isArchive = false)
    (hfil : filteredFiles [a, r] t q = [a, r])
    (h1 : a.firstPublished < r.firstPublished)
    (h2 : r.firstPublished ≤ a.lastPublished)
    (h3 : a.lastPublished < r.lastPublished) :
    streamFiles [a, r] t q = [a] ∧
    streamedEntries entries [a, r] t q = entries a := by
  have hd : disjointCoverB r.timeRange [a.timeRange] = false := by
    rw [Bool.eq_false_iff, Ne, disjointCoverB_iff]
    intro hall
    refine hall r.firstPublished ⟨?_, a.timeRange, List.mem_cons_self _ _, ?_⟩
    · simp only [memIvl, File.timeRange]
      omega
    · simp only [memIvl, File.timeRange]
      omega
  have hs : streamFiles [a, r] t q = [a] := by
    unfold streamFiles
    rw [hfil]
    simp [dedupScan, ha, hr, hd]
  refine ⟨hs, ?_⟩
  unfold streamedEntries
  rw [hs]
  simp

/-- Claim C3, witness for the amended statement: the archive `[0, 10]` is
streamed and the overlapping recent file `[1, 20]` is dropped. -/
theorem c3_stream_overlapping_recent_dropped_witness :
    archiveEx.isArchive = true ∧
    recentOverlapEx.isArchive = false ∧
    filteredFiles [archiveEx, recentOverlapEx] .bridgePoolAssignment (closedRange 0 20) =
      [archiveEx, recentOverlapEx] ∧
    archiveEx.firstPublished < recentOverlapEx.firstPublished ∧
    recentOverlapEx.firstPublished ≤ archiveEx.lastPublished ∧
    archiveEx.lastPublished < recentOverlapEx.lastPublished ∧
    (streamFiles [archiveEx, recentOverlapEx] .bridgePoolAssignment (closedRange 0 20) =
        [archiveEx] ∧
      streamedEntries entriesEx [archiveEx, recentOverlapEx] .bridgePoolAssignment
        (closedRange 0 20) = entriesEx archiveEx) :=
  ⟨by decide, by decide, by decide, by decide, by decide, by decide,
    c3_stream_overlapping_recent_dropped archiveEx recentOverlapEx entriesEx
      .bridgePoolAssignment (closedRange 0 20) (by decide) (by decide) (by decide)
      (by decide) (by decide) (by decide)⟩

/-- Claim C1, counterexample: for a file with `first_published = 5` and
`last_published = 0` (the unenforced invariant `first_published ≤ last_published`
is violated), `last_modified = 100`, and the closed range `[4, 6]`, `File::overlap`
returns `true` (the range contains `first_published`) although the interval
`[first_published, last_published]` is empty, so it does not intersect `[4, 6]`,
and `last_modified` is outside `[4, 6]`. The claimed equivalence fails. -/
theorem c1_overlap_closed_counterexample :
    ¬ (((File.mk [] 0 100 [] 5 0 []).overlap (closedRange 4 6) = some true) ↔
      ((∃ t : Int, ((5:Int) ≤ t ∧ t ≤ 0) ∧ ((4:Int) ≤ t ∧ t ≤ 6))
        ∨ ((4:Int) ≤ 100 ∧ (100:Int) ≤ 6))) := by
  intro hiff
  have hov : (File.mk [] 0 100 [] 5 0 []).overlap (closedRange 4 6) = some true := by decide
  rcases hiff.mp hov with ⟨t, ⟨h1, h2⟩, _⟩ | ⟨_, h⟩
  · omega
  · omega

/-- Claim C1 (amended: the file must satisfy `first_published ≤ last_published`):
for a closed bounded range `[a, b]`, `File::overlap` returns `true` iff the closed
interval `[first_published, last_published]` meets `[a, b]` or
`a ≤ last_modified ≤ b`; equivalently, iff `[a, b]` contains one of
`first_published`, `last_published`, `last_modified`, or `[a, b]` is strictly
contained inside `[first_published, last_published]`. -/
theorem c1_overlap_closed_iff (f : File) (a b : Int)
    (hfl : f.firstPublished ≤ f.lastPublished) (hab : a ≤ b) :
    ((f.overlap (closedRange a b) = some true) ↔
      ((∃ t, (f.firstPublished ≤ t ∧ t ≤ f.lastPublished) ∧ (a ≤ t ∧ t ≤ b))
        ∨ (a ≤ f.lastModified ∧ f.lastModified ≤ b)))
    ∧ ((f.overlap (closedRange a b) = some true) ↔
      ((a ≤ f.firstPublished ∧ f.firstPublished ≤ b)
        ∨ (a ≤ f.lastPublished ∧ f.lastPublished ≤ b)
        ∨ (a ≤ f.lastModified ∧ f.lastModified ≤ b)
        ∨ (f.firstPublished < a ∧ b < f.lastPublished))) := by
  rw [overlap_closedRange]
  simp only [Option.some.injEq, decide_eq_true_eq, closed_inter_nonempty]
  constructor
  · omega
  · omega

/-- Claim C1, witness: the amended equivalence instantiated at a file with
`first_published = 10`, `last_published = 20`, `last_modified = 50` and the
closed range `[15, 30]`. -/
theorem c1_overlap_closed_iff_witness :
    (10:Int) ≤ 20 ∧ (15:Int) ≤ 30 ∧
    ((((File.mk [] 0 50 [] 10 20 []).overlap (closedRange 15 30) = some true) ↔
      ((∃ t, ((10:Int) ≤ t ∧ t ≤ 20) ∧ ((15:Int) ≤ t ∧ t ≤ 30))
        ∨ ((15:Int) ≤ 50 ∧ (50:Int) ≤ 30)))
    ∧ (((File.mk [] 0 50 [] 10 20 []).overlap (closedRange 15 30) = some true) ↔
      (((15:Int) ≤ 10 ∧ (10:Int) ≤ 30)
        ∨ ((15:Int) ≤ 20 ∧ (20:Int) ≤ 30)
        ∨ ((15:Int) ≤ 50 ∧ (50:Int) ≤ 30)
        ∨ ((10:Int) < 15 ∧ (30:Int) < 20)))) :=
  ⟨by norm_num, by norm_num,
    c1_overlap_closed_iff (File.mk [] 0 50 [] 10 20 []) 15 30 (by norm_num) (by norm_num)⟩

theorem digitChar_toNat (d : Nat) (hd : d < 10) : (Char.ofNat (48 + d)).toNat = 48 + d := by
  interval_cases d <;> decide

theorem natDigits_foldl (n : Nat) :
    ∀ a, (natDigits n).foldl (fun acc c => acc * 10 + (c.toNat - 48)) a
      = a * 10 ^ (natDigits n).length + n := by
  induction n using Nat.strong_induction_on with
  | _ n ih =>
    intro a
    by_cases h : n < 10
    · rw [natDigits, dif_pos h]
      simp [List.foldl, digitChar_toNat n h]
    · rw [natDigits, dif_neg h]
      rw [List.foldl_append, ih (n / 10) (Nat.div_lt_self (by omega) (by omega))]
      simp only [List.foldl, List.length_append, List.length_cons, List.length_nil,
        digitChar_toNat (n % 10) (by omega)]
      have hmod : n / 10 * 10 + n % 10 = n := by omega
      calc (a * 10 ^ (natDigits (n / 10)).length + n / 10) * 10 + (48 + n % 10 - 48)
          = a * (10 ^ (natDigits (n / 10)).length * 10) + (n / 10 * 10 + n % 10) := by ring_nf; omega
        _ = a * 10 ^ ((natDigits (n / 10)).length + 0 + 1) + n := by rw [hmod, pow_succ]

theorem natDigits_ne_nil (n : Nat) : natDigits n ≠ [] := by
  rw [natDigits]
  split <;> simp

theorem natDigits_mem_digit (n : Nat) :
    ∀ c ∈ natDigits n, 48 ≤ c.toNat ∧ c.toNat ≤ 57 := by
  induction n using Nat.strong_induction_on with
  | _ n ih =>
    intro c hc
    rw [natDigits] at hc
    split at hc
    · rcases List.mem_singleton.mp hc with rfl
      rw [digitChar_toNat n (by omega)]
      omega
    · rcases List.mem_append.mp hc with hc | hc
      · exact ih (n / 10) (Nat.div_lt_self (by omega) (by omega)) c hc
      · rcases List.mem_singleton.mp hc with rfl
        rw [digitChar_toNat (n % 10) (by omega)]
        omega

theorem parseNat_natDigits (n : Nat) : parseNat (natDigits n) = some n := by
  unfold parseNat
  rw [if_neg (natDigits_ne_nil n)]
  rw [if_pos]
  · rw [natDigits_foldl n 0]
    simp
  · rw [List.all_eq_true]
    intro c hc
    have := natDigits_mem_digit n c hc
    simp only [Bool.and_eq_true, decide_eq_true_eq]
    omega

theorem dot_not_mem_natDigits (n : Nat) : '.' ∉ natDigits n := by
  intro h
  have := natDigits_mem_digit n '.' h
  simp at this

theorem splitOnce_append (sep : Char) (l₁ l₂ : List Char) (h : sep ∉ l₁) :
    splitOnce sep (l₁ ++ sep :: l₂) = some (l₁, l₂) := by
  induction l₁ with
  | nil => simp [splitOnce]
  | cons c rest ih =>
    have hcs : ¬c = sep := fun he => h (by rw [he]; exact List.mem_cons_self _ _)
    simp only [List.cons_append, splitOnce, List.append_eq, if_neg hcs]
    rw [ih (fun hm => h (List.mem_cons_of_mem _ hm))]
    rfl

theorem space_not_mem_asStr (t : DescType) (ht : ∀ s, t ≠ .unknown s) :
    ' ' ∉ t.asStr := by
  cases t <;> first
    | exact absurd rfl (ht _)
    | decide

theorem fromStr_asStr (t : DescType) (ht : ∀ s, t ≠ .unknown s) :
    DescType.fromStr t.asStr = t := by
  cases t <;> first
    | exact absurd rfl (ht _)
    | decide

/-- Claim C9: for every `VersionnedType` whose type is not `Unknown` and any
version `(major, minor)`, serializing to `"<type-name> <major>.<minor>"` and
deserializing that string yields back an equal `VersionnedType`. -/
theorem c9_versionned_type_roundtrip (t : DescType) (ma mi : Nat)
    (ht : ∀ s, t ≠ .unknown s) :
    VersionnedType.deserializeStr (VersionnedType.serializeStr ⟨t, (ma, mi)⟩) =
      some ⟨t, (ma, mi)⟩ := by
  unfold VersionnedType.serializeStr VersionnedType.deserializeStr
  rw [splitOnce_append ' ' _ _ (space_not_mem_asStr t ht)]
  simp only
  rw [splitOnce_append '.' _ _ (dot_not_mem_natDigits ma)]
  simp only
  rw [parseNat_natDigits, parseNat_natDigits]
  simp only
  rw [fromStr_asStr t ht]

/-- Claim C9, witness: the roundtrip at `bridge-pool-assignment 1.0`. -/
theorem c9_versionned_type_roundtrip_witness :
    (∀ s, DescType.bridgePoolAssignment ≠ .unknown s) ∧
    VersionnedType.deserializeStr
        (VersionnedType.serializeStr ⟨.bridgePoolAssignment, (1, 0)⟩) =
      some ⟨.bridgePoolAssignment, (1, 0)⟩ :=
  ⟨fun _ h => DescType.noConfusion h,
    c9_versionned_type_roundtrip .bridgePoolAssignment 1 0 (fun _ h => DescType.noConfusion h)⟩

/-- Claim C4: each parser rejects with `UnsupportedDesc` exactly outside its
declared window, and does not reject on version grounds inside it. The windows
are: bridge-pool-assignment 1.0, server-descriptor 1.0,
bridge-server-descriptor 1.0–1.2, bridge-extra-info 1.0–1.3,
bridge-network-status 1.0–1.2, bridgestrap-stats 1.0, microdescriptor 1.0. -/
theorem c4_version_gates (ma mi : Nat) :
    (BridgePoolAssignment.rejectsVersion (ma, mi) = true ↔ ¬(ma = 1 ∧ mi = 0))
    ∧ (ServerDescriptor.rejectsVersion (ma, mi) = true ↔ ¬(ma = 1 ∧ mi = 0))
    ∧ (BridgeServerDescriptor.rejectsVersion (ma, mi) = true ↔ ¬(ma = 1 ∧ mi ≤ 2))
    ∧ (BridgeExtraInfo.rejectsVersion (ma, mi) = true ↔ ¬(ma = 1 ∧ mi ≤ 3))
    ∧ (BridgeNetworkStatus.rejectsVersion (ma, mi) = true ↔ ¬(ma = 1 ∧ mi ≤ 2))
    ∧ (BridgestrapStats.rejectsVersion (ma, mi) = true ↔ ¬(ma = 1 ∧ mi = 0))
    ∧ (Microdescriptor.rejectsVersion (ma, mi) = true ↔ ¬(ma = 1 ∧ mi = 0)) := by
  refine ⟨?_, ?_, ?_, ?_, ?_, ?_, ?_⟩ <;>
    simp only [BridgePoolAssignment.rejectsVersion, ServerDescriptor.rejectsVersion,
      BridgeServerDescriptor.rejectsVersion, BridgeExtraInfo.rejectsVersion,
      BridgeNetworkStatus.rejectsVersion, BridgestrapStats.rejectsVersion,
      Microdescriptor.rejectsVersion, Bool.or_eq_true, decide_eq_true_eq] <;>
    omega

/-- Claim C5, evaluation at the failing input: an input whose first line is not
a well-formed `@type <name> <major>.<minor>` header makes `Descriptor::decode`
panic (the `expect` on the header parser) instead of returning a
`MalformedDesc`/`UnsupportedDesc` error; a recognized kind with no implemented
parser does yield `UnsupportedDesc`. -/
theorem c5_decode_malformed_header_panics :
    Descriptor.decodeFront (String.toList "not a descriptor") = .panicked
    ∧ Descriptor.decodeFront (String.toList "@type torperf 1.0\nrest") =
        .unsupported .torperf
    ∧ Descriptor.decodeFront
        (String.toList "@type network-status-microdesc-consensus-3 1.0\nrest") =
        .panicked := by
  refine ⟨by decide, by decide, by decide⟩

theorem listFilesRec_mk (p : List Char) (dirs : List Directory) (files : List File) :
    Directory.listFilesRec (.mk p dirs files) =
    (dirs.flatMap Directory.listFilesRec).map (fun pf => (pf.1 ++ [p], pf.2))
      ++ files.map (fun f => ([p], f)) := by
  rw [Directory.listFilesRec]
  simp only [List.flatMap_subtype, List.unattach_attach]

theorem leavesSpec_mk (p : List Char) (dirs : List Directory) (files : List File) :
    Directory.leavesSpec (.mk p dirs files) =
    dirs.flatMap (fun d => (d.leavesSpec).map (fun pf => (p :: pf.1, pf.2)))
      ++ files.map (fun f => ([p], f)) := by
  rw [Directory.leavesSpec]
  simp only [List.flatMap_subtype, List.unattach_attach]

theorem listFilesRec_eq_leavesSpec_aux :
    ∀ (n : Nat) (d : Directory), sizeOf d ≤ n →
      d.listFilesRec = d.leavesSpec.map (fun pf => (pf.1.reverse, pf.2)) := by
  intro n
  induction n with
  | zero =>
    intro d h
    cases d with
    | mk p dirs files => simp [Directory.mk.sizeOf_spec] at h
  | succ n ih =>
    intro d hle
    cases d with
    | mk p dirs files =>
      have hsub : ∀ c ∈ dirs, sizeOf c ≤ n := by
        intro c hc
        have h1 := List.sizeOf_lt_of_mem hc
        simp only [Directory.mk.sizeOf_spec] at hle
        omega
      rw [listFilesRec_mk, leavesSpec_mk, List.map_append]
      congr 1
      · simp only [List.map_flatMap]
        apply List.flatMap_congr
        intro c hc
        rw [ih c (hsub c hc), List.map_map, List.map_map]
        apply List.map_congr_left
        intro pf _
        simp
      · rw [List.map_map]
        apply List.map_congr_left
        intro f _
        simp

theorem listFilesRec_eq_leavesSpec (d : Directory) :
    d.listFilesRec = d.leavesSpec.map (fun pf => (pf.1.reverse, pf.2)) :=
  listFilesRec_eq_leavesSpec_aux (sizeOf d) d le_rfl

/-- Claim C7, counterexample: a manifest with one file listed directly at the
root of the tree and no directories produces an empty index —
`SerializedIndex::list_files` iterates only `directories` and drops root-level
files, so the claimed entry for this leaf is absent. -/
theorem c7_root_files_dropped_counterexample :
    SerializedIndex.listFiles
        ⟨0, [], [], [], [File.mk (String.toList "root.txt") 3 0 [] 0 0 []]⟩ = []
    ∧ File.mk (String.toList "root.txt") 3 0 [] 0 0 [] ∉
        SerializedIndex.indexFiles
          ⟨0, [], [], [], [File.mk (String.toList "root.txt") 3 0 [] 0 0 []]⟩ :=
  ⟨rfl, by decide⟩

/-- Claim C7 (amended: root-level files are omitted): the constructed index
holds one entry per leaf file reachable through the `directories` field, and
each entry's path is the names of its ancestor directories, in root-to-leaf
order, joined with "/" and followed by the leaf's own path. -/
theorem c7_list_files_flattening (idx : SerializedIndex) :
    idx.listFiles =
      (idx.directories.flatMap Directory.leavesSpec).map
        (fun pf => (joinSlash (pf.1 ++ [pf.2.path]), pf.2)) := by
  unfold SerializedIndex.listFiles
  simp only [List.map_flatMap]
  apply List.flatMap_congr
  intro d _
  rw [listFilesRec_eq_leavesSpec d, List.map_map]
  apply List.map_congr_left
  intro pf _
  simp

theorem splitAtTypeMarkers_none (body : List Char) (h : findMarker body = none) :
    splitAtTypeMarkers body = [body] := by
  rw [splitAtTypeMarkers]
  split
  · rfl
  · next idx heq => rw [h] at heq; cases heq

theorem splitAtTypeMarkers_some (body : List Char) (idx : Nat)
    (h : findMarker body = some idx) :
    splitAtTypeMarkers body =
      body.take (idx + 1) :: splitAtTypeMarkers (body.drop (idx + 1)) := by
  rw [splitAtTypeMarkers]
  split
  · next heq => rw [h] at heq; cases heq
  · next j heq =>
    rw [h] at heq
    cases heq
    rfl

theorem findMarker_prefix (s : List Char) :
    ∀ idx, findMarker s = some idx → leadsWith markerChars (s.drop idx) = true := by
  induction s with
  | nil =>
    intro idx h
    simp [findMarker] at h
  | cons c rest ih =>
    intro idx h
    rw [findMarker] at h
    split at h
    · next hcond =>
      cases h
      exact hcond
    · next hcond =>
      cases hf : findMarker rest with
      | none => rw [hf] at h; cases h
      | some j =>
        rw [hf] at h
        simp only [Option.map_some'] at h
        cases h
        rw [List.drop_succ_cons]
        exact ih j hf

theorem leadsWith_take (p s : List Char) (n : Nat) (h : leadsWith p s = true)
    (hn : p.length ≤ n) : leadsWith p (s.take n) = true := by
  rw [leadsWith, List.isPrefixOf_iff_prefix] at h ⊢
  rw [List.prefix_take_iff]
  exact ⟨h, hn⟩

theorem leadsWith_drop_marker (s : List Char) (idx : Nat)
    (h : leadsWith markerChars (s.drop idx) = true) :
    leadsWith atTypeChars (s.drop (idx + 1)) = true := by
  rw [leadsWith, List.isPrefixOf_iff_prefix] at h ⊢
  obtain ⟨t, ht⟩ := h
  have hdd : s.drop (idx + 1) = (s.drop idx).drop 1 := by
    rw [List.drop_drop]
  rw [hdd, ← ht]
  exact ⟨t, rfl⟩

theorem marker_pos_ge (s : List Char) (idx : Nat)
    (h5 : leadsWith atTypeChars s = true)
    (hm : leadsWith markerChars (s.drop idx) = true) : 5 ≤ idx := by
  rw [leadsWith, List.isPrefixOf_iff_prefix] at h5 hm
  obtain ⟨t, ht⟩ := h5
  obtain ⟨u, hu⟩ := hm
  by_contra hlt
  push_neg at hlt
  subst ht
  interval_cases idx <;>
    simp [markerChars, atTypeChars, List.drop] at hu

theorem splitAtTypeMarkers_flatten_aux :
    ∀ (n : Nat) (body : List Char), body.length ≤ n →
      (splitAtTypeMarkers body).flatten = body := by
  intro n
  induction n with
  | zero =>
    intro body hlen
    have hbe : body = [] := List.length_eq_zero.mp (Nat.le_antisymm hlen (Nat.zero_le _))
    subst hbe
    rw [splitAtTypeMarkers_none [] (by simp [findMarker])]
    simp
  | succ n ih =>
    intro body hlen
    cases hm : findMarker body with
    | none =>
      rw [splitAtTypeMarkers_none body hm]
      simp
    | some idx =>
      have hne : body ≠ [] := by
        intro he
        subst he
        simp [findMarker] at hm
      have hpos : 0 < body.length := List.length_pos.mpr hne
      rw [splitAtTypeMarkers_some body idx hm]
      rw [List.flatten_cons]
      rw [ih (body.drop (idx + 1)) (by simp [List.length_drop]; omega)]
      exact List.take_append_drop _ _

theorem splitAtTypeMarkers_start_aux :
    ∀ (n : Nat) (body : List Char), body.length ≤ n →
      leadsWith atTypeChars body = true →
      ∀ chunk ∈ splitAtTypeMarkers body, leadsWith atTypeChars chunk = true := by
  intro n
  induction n with
  | zero =>
    intro body hlen hb chunk hc
    have hbe : body = [] := List.length_eq_zero.mp (Nat.le_antisymm hlen (Nat.zero_le _))
    subst hbe
    simp [leadsWith, List.isPrefixOf, atTypeChars] at hb
  | succ n ih =>
    intro body hlen hb chunk hc
    cases hm : findMarker body with
    | none =>
      rw [splitAtTypeMarkers_none body hm] at hc
      rcases List.mem_singleton.mp hc with rfl
      exact hb
    | some idx =>
      have hpref := findMarker_prefix body idx hm
      have hge : 5 ≤ idx := marker_pos_ge body idx hb hpref
      have hne : body ≠ [] := by
        intro he
        subst he
        simp [findMarker] at hm
      have hpos : 0 < body.length := List.length_pos.mpr hne
      rw [splitAtTypeMarkers_some body idx hm] at hc
      rcases List.mem_cons.mp hc with rfl | hc
      · exact leadsWith_take _ _ _ hb (by simp [atTypeChars]; omega)
      · exact ih (body.drop (idx + 1)) (by simp [List.length_drop]; omega)
          (leadsWith_drop_marker body idx hpref) chunk hc

/-- Claim C8, counterexample: on the two-descriptor content
`"@type a 1.0\nx\n@type b 1.0\ny"`, the split newline stays at the end of the
first yielded chunk — the second chunk begins directly with `@type` — whereas
the claim places the newline at the head of the next chunk. -/
theorem c8_split_newline_counterexample :
    splitAtTypeMarkers (String.toList "@type a 1.0\nx\n@type b 1.0\ny") =
        [String.toList "@type a 1.0\nx\n", String.toList "@type b 1.0\ny"]
    ∧ splitAtTypeMarkers (String.toList "@type a 1.0\nx\n@type b 1.0\ny") ≠
        [String.toList "@type a 1.0\nx", String.toList "\n@type b 1.0\ny"] := by
  have he : splitAtTypeMarkers (String.toList "@type a 1.0\nx\n@type b 1.0\ny") =
      [String.toList "@type a 1.0\nx\n", String.toList "@type b 1.0\ny"] := by
    rw [splitAtTypeMarkers_some _ 13 (by decide)]
    rw [splitAtTypeMarkers_none _ (by decide)]
    decide
  refine ⟨he, ?_⟩
  rw [he]
  decide

/-- Claim C8 (amended: the newline at each split point stays with the preceding
chunk, not the next one): for every plain file content, the reader splits at
each occurrence of a newline immediately followed by `@type`, yields the chunks
in order (final chunk included), their concatenation is the original content,
and — when the content itself begins with `@type` — every yielded chunk begins
with `@type` (each non-first chunk starting right after a split newline). -/
theorem c8_read_file_split (body : List Char) :
    (splitAtTypeMarkers body).flatten = body
    ∧ (leadsWith atTypeChars body = true →
        ∀ chunk ∈ splitAtTypeMarkers body, leadsWith atTypeChars chunk = true) :=
  ⟨splitAtTypeMarkers_flatten_aux body.length body le_rfl,
    fun hb chunk hc => splitAtTypeMarkers_start_aux body.length body le_rfl hb chunk hc⟩

/-- Claim C8, witness: the amended statement at the two-descriptor content. -/
theorem c8_read_file_split_witness :
    (splitAtTypeMarkers (String.toList "@type a 1.0\nx\n@type b 1.0\ny")).flatten =
        String.toList "@type a 1.0\nx\n@type b 1.0\ny"
    ∧ leadsWith atTypeChars (String.toList "@type a 1.0\nx\n@type b 1.0\ny") = true
    ∧ leadsWith atTypeChars (String.toList "@type a 1.0\nx\n") = true :=
  ⟨(c8_read_file_split (String.toList "@type a 1.0\nx\n@type b 1.0\ny")).1,
    by decide,
    (c8_read_file_split (String.toList "@type a 1.0\nx\n@type b 1.0\ny")).2 (by decide)
      (String.toList "@type a 1.0\nx\n")
      (by
        rw [splitAtTypeMarkers_some _ 13 (by decide)]
        rw [splitAtTypeMarkers_none _ (by decide)]
        decide)⟩

/-- Claim C6: when the local file exists and its hash matches, the task succeeds
with zero HTTP requests and an unchanged disk; consequently, re-running the task
after any successful run issues no request and leaves the content unchanged. -/
theorem c6_download_cached_short_circuit :
    (∀ (sha : List Nat → List Nat) (fileSha : List Nat) (fileSize : Nat)
        (content : List Nat) (download : Bool) (resp : HttpResp),
        sha content = fileSha →
        downloadInner sha fileSha fileSize (some content) download resp =
          (.ok, some content, 0))
    ∧ (∀ (sha : List Nat → List Nat) (fileSha : List Nat) (fileSize : Nat)
        (disk : Option (List Nat)) (dl dl₂ : Bool) (resp resp₂ : HttpResp)
        (d₂ : Option (List Nat)) (n : Nat),
        downloadInner sha fileSha fileSize disk dl resp = (.ok, d₂, n) →
        downloadInner sha fileSha fileSize d₂ dl₂ resp₂ = (.ok, d₂, 0)) := by
  constructor
  · intro sha fileSha fileSize content download resp h
    simp only [downloadInner]
    rw [if_pos h]
  · intro sha fileSha fileSize disk dl dl₂ resp resp₂ d₂ n h
    have hgoal : ∃ c, d₂ = some c ∧ sha c = fileSha := by
      rcases disk with _ | content
      · simp only [downloadInner, fetchStep] at h
        split_ifs at h with h1 h2 h3 h4 <;>
          simp only [Prod.mk.injEq] at h
        · exact absurd h.1 (by intro hx; cases hx)
        · exact absurd h.1 (by intro hx; cases hx)
        · exact absurd h.1 (by intro hx; cases hx)
        · exact absurd h.1 (by intro hx; cases hx)
        · exact ⟨resp.body, h.2.1.symm, not_not.mp h4⟩
      · simp only [downloadInner, fetchStep] at h
        split_ifs at h with h0 h1 h2 h3 h4 <;>
          simp only [Prod.mk.injEq] at h
        · exact ⟨content, h.2.1.symm, h0⟩
        · exact absurd h.1 (by intro hx; cases hx)
        · exact absurd h.1 (by intro hx; cases hx)
        · exact absurd h.1 (by intro hx; cases hx)
        · exact absurd h.1 (by intro hx; cases hx)
        · exact ⟨resp.body, h.2.1.symm, not_not.mp h4⟩
    obtain ⟨c, rfl, hsha⟩ := hgoal
    simp only [downloadInner]
    rw [if_pos hsha]

/-- Claim C6, witness: with the identity as hash function, a cached file whose
hash matches succeeds with zero requests, twice in a row. -/
theorem c6_download_cached_short_circuit_witness :
    (fun l : List Nat => l) [1, 2] = [1, 2]
    ∧ downloadInner (fun l => l) [1, 2] 2 (some [1, 2]) true ⟨200, none, []⟩ =
        (.ok, some [1, 2], 0) :=
  ⟨rfl,
    c6_download_cached_short_circuit.1 (fun l => l) [1, 2] 2 [1, 2] true
      ⟨200, none, []⟩ rfl⟩

/-- Claim C10: `File::overlap` is total. For every file and every time range (any
combination of included, excluded and unbounded endpoints) it returns a boolean:
the `expect` asserting that the range cannot be fully unbounded is unreachable,
because a range unbounded on both ends contains `first_published`, making the
function return `true` earlier. -/
theorem c10_overlap_total :
    (∀ (f : File) (r : TimeRange), (f.overlap r).isSome = true)
    ∧ (∀ f : File, f.overlap ⟨.unbounded, .unbounded⟩ = some true) := by
  constructor
  · intro f r
    obtain ⟨sb, eb⟩ := r
    unfold File.overlap
    rcases sb with _ | v | v <;> rcases eb with _ | w | w <;>
      simp [RBound.getBound, TimeRange.containsT, RBound.startContains,
        RBound.endContains] <;>
      split <;> simp
  · intro f
    unfold File.overlap
    simp [TimeRange.containsT, RBound.startContains, RBound.endContains]

end Collector
